import Mathlib

/-!
Verification of the citeproc-rs locale, processor, cite-context, name
deserialization and incremental-engine behaviour, as a shallow embedding of
the Rust sources.  Pure Rust functions become Lean functions; the salsa
database context becomes an explicit record of the inputs each query group
reads.  Parts of the program that live outside the available sources (the
`csl` crate's `Locale::merge`, `Lang::iter`, the numeric-value classifier,
the salsa runtime) are modelled from the specification and are marked as
such in their doc comments.
-/

namespace Citeproc

/-- Language tags, written as in the spec ("en-US", "de-AT", ...).  The
structured `csl::locale::Lang` type is not in the sources; its textual tag
is all the embedded code inspects. -/
abbrev Lang := String

/-- Modelled from the spec: the bundled root-fallback language `en-US`
(`Lang::en_us()`). -/
def Lang.en_us : Lang := "en-US"

/-- Opaque reference ids (`csl::Atom`). -/
abbrev Atom := String

/-- Names of the optional fields of a `Locale` (terms, options-node fields,
date formats), ranged over generically. -/
abbrev LField := String

/-- Values held by optional locale fields. -/
abbrev LVal := String

/-- Modelled from the spec: a parsed `Locale{lang?, options, terms,
date_formats}` whose merge-relevant content is a family of optional fields
(`LocaleOptions` fields "are all optional until the final merge step"). -/
structure Locale where
  lang : Option Lang
  fields : LField → Option LVal

/-- Modelled from the spec: `Locale::default()`, every optional field
absent. -/
def Locale.default : Locale :=
  { lang := none, fields := fun _ => none }

/-- Modelled from the spec: `base.merge(&other)` is field-wise, `Some`
overrides and `None` preserves; `other` has the higher precedence. -/
def Locale.merge (base other : Locale) : Locale where
  lang :=
    match other.lang with
    | some l => some l
    | none => base.lang
  fields := fun f =>
    match other.fields f with
    | some v => some v
    | none => base.fields f

/-- `csl::locale::LocaleSource`: a `File(lang)` fetched externally or an
`Inline(lang?)` override carried by the style. -/
inductive LocaleSource where
  | File (lang : Lang)
  | Inline (lang : Option Lang)
  deriving DecidableEq

/-- `LocaleFetchError::{Io, Other}` from `citeproc-db/src/xml.rs`. -/
inductive LocaleFetchError where
  | Io (e : String)
  | Other (e : String)
  deriving DecidableEq

/-- The `Result<Option<String>, LocaleFetchError>` returned by
`LocaleFetcher::fetch_string`. -/
inductive FetchResult where
  | Ok (s : Option String)
  | Err (e : LocaleFetchError)
  deriving DecidableEq

/-- The salsa inputs and external capabilities read by the locale query
group of `citeproc-db/src/xml.rs`: the `locale_input_xml`/
`locale_input_langs` inputs, the fetcher, the style's `locale_overrides`
map read by `inline_locale`, and locale XML parsing (`Locale::from_str`,
an external pure function `bytes → Locale` per the spec, a parse failure
being `none`). -/
structure LocaleDb where
  locale_input_langs : List Lang
  locale_input_xml : Lang → String
  fetch_string : Lang → FetchResult
  locale_overrides : Option Lang → Option Locale
  from_str : String → Option Locale

/-- `locale_xml` (xml.rs 71-85): stored XML wins; otherwise ask the
fetcher, treating `Ok(None)` and `Err(_)` (logged) alike as no XML. -/
def locale_xml (db : LocaleDb) (key : Lang) : Option String :=
  if key ∈ db.locale_input_langs then
    some (db.locale_input_xml key)
  else
    match db.fetch_string key with
    | .Ok (some s) => some s
    | .Ok none => none
    | .Err _ => none

/-- `inline_locale` (xml.rs 87-89): look up the style's locale overrides. -/
def inline_locale (db : LocaleDb) (key : Option Lang) : Option Locale :=
  db.locale_overrides key

/-- `locale` (xml.rs 91-107): a `File` source fetches XML and parses it,
a parse failure being logged and turned into `None`; an `Inline` source
reads the style override. -/
def locale (db : LocaleDb) : LocaleSource → Option Locale
  | .File lang => (locale_xml db lang).bind fun s => db.from_str s
  | .Inline lang => inline_locale db lang

/-- `merged_locale` (xml.rs 109-129): collect the locales that loaded
successfully along the fallback chain, then fold the list in reverse into
an accumulator with `base.merge(&l)`, defaulting to `Locale::default()`
when nothing loaded.  The fallback chain produced by `Lang::iter()` (csl
crate, modelled from the spec) is passed as the `chain` argument. -/
def merged_locale (db : LocaleDb) (chain : List LocaleSource) : Locale :=
  let locales := chain.filterMap (locale db)
  (locales.reverse.foldl
      (fun acc l =>
        match acc with
        | none => some l
        | some base => some (base.merge l))
      none).getD Locale.default

/-- `citeproc_rs_write_locale_slot` (bindings/ffi/src/lib.rs 61-76): the
embedder's fetch callback hands locale XML back through a slot; the XML is
parsed eagerly "so you catch errors before they become invisible", a parse
failure aborting with `expect("could not parse locale xml")` (modelled as
`Except.error`); on success the `(lang, xml)` pair is pushed onto the
storage that later feeds `store_locales`. -/
def citeproc_rs_write_locale_slot (from_str : String → Option Locale)
    (storage : List (Lang × String)) (lang : Lang) (xml : String) :
    Except String (List (Lang × String)) :=
  match from_str xml with
  | none => .error "could not parse locale xml"
  | some _ => .ok (storage ++ [(lang, xml)])

/-- A database whose fetcher always returns XML that never parses. -/
def dbParseErr : LocaleDb where
  locale_input_langs := []
  locale_input_xml := fun _ => ""
  fetch_string := fun _ => .Ok (some "<bad")
  locale_overrides := fun _ => none
  from_str := fun _ => none

/-- A database whose fetcher always fails with an error. -/
def dbFetchErr : LocaleDb where
  locale_input_langs := []
  locale_input_xml := fun _ => ""
  fetch_string := fun _ => .Err (.Other "no transport")
  locale_overrides := fun _ => none
  from_str := fun _ => none

/-! Style-level name options (claim C8). -/

/-- Names of the optional `<name>` attributes carried by a
`csl::style::Name` (`and`, `delimiter`, `et-al-min`, ...), ranged over
generically. -/
abbrev NAttr := String

/-- Values held by optional name attributes. -/
abbrev NAttrVal := String

/-- Modelled from the spec (§4.A): the `csl::style::Name` inheritance
record, every attribute optional until merged. -/
structure Csl.Name where
  opts : NAttr → Option NAttrVal

/-- Modelled from the spec: `Name::merge` is field-wise, `Some` overrides
and `None` preserves; the argument has the higher precedence. -/
def Csl.Name.merge (base other : Csl.Name) : Csl.Name where
  opts := fun a =>
    match other.opts a with
    | some v => some v
    | none => base.opts a

/-- Modelled from the spec: `Name::root_default()`, the fully populated
attribute defaults ("attribute defaults are specified for every
element"). -/
def Csl.Name.root_default : Csl.Name where
  opts := fun a => some ("default " ++ a)

/-- `csl::style::Citation` restricted to the field the embedded queries
read. -/
structure Csl.Citation where
  name_inheritance : Csl.Name

/-- `csl::style::Style` restricted to the fields the embedded queries
read: the style-level and citation-level name inheritance and the default
locale tag. -/
structure Csl.Style where
  name_inheritance : Csl.Name
  citation : Csl.Citation
  default_locale : Lang

/-- `name_citation` (citeproc-db/src/xml.rs 31-37): merge the root
defaults with the `<style>`-level then the `<citation>`-level name
options. -/
def name_citation (style : Csl.Style) : Csl.Name :=
  let default := Csl.Name.root_default
  let root := style.name_inheritance
  let citation := style.citation.name_inheritance
  (default.merge root).merge citation

/-! Variables, numeric values, references, cite contexts (claim C6). -/

/-- Ordinary (string) variables; representative members of the fixed
enumeration (`csl::style::variables`, not among the sources). -/
inductive Variable where
  | Title
  | ContainerTitle
  | Version
  deriving DecidableEq

/-- Number variables; the members the embedded code inspects plus
representatives of the rest. -/
inductive NumberVariable where
  | Locator
  | Page
  | PageFirst
  | Volume
  | Issue
  deriving DecidableEq

/-- Name variables, including the `Dummy` member special-cased by
`has_variable`. -/
inductive NameVariable where
  | Author
  | Editor
  | Dummy
  deriving DecidableEq

/-- Date variables. -/
inductive DateVariable where
  | Issued
  | Accessed
  deriving DecidableEq

/-- `AnyVariable`: the four disjoint variable namespaces. -/
inductive AnyVariable where
  | Ordinary (v : Variable)
  | Number (v : NumberVariable)
  | Name (v : NameVariable)
  | Date (v : DateVariable)
  deriving DecidableEq

/-- Modelled from the spec (§3.E): the numeric value classification
`Number(i32) | Range(i32,i32) | Affixed(string) | Literal(string)`.  An
`Affixed` value such as "2A" is numeric with a textual affix; it is
represented with its leading integer and affix split out so that "the
first integer" extracted by `page_first` is well defined. -/
inductive NumericValue where
  | Number (n : Int)
  | Range (a b : Int)
  | Affixed (n : Int) (affix : String)
  | Literal (s : String)
  deriving DecidableEq

/-- Modelled from the spec: `is_numeric` is true for the first three
variants. -/
def NumericValue.is_numeric : NumericValue → Bool
  | .Literal _ => false
  | _ => true

/-- Modelled from the spec: `page_first(v)` extracts the first integer of
a page value (the start of a range, or the value's own integer). -/
def NumericValue.page_first : NumericValue → Option NumericValue
  | .Number n => some (.Number n)
  | .Range a _ => some (.Number a)
  | .Affixed n _ => some (.Number n)
  | .Literal _ => none

/-! CSL-JSON name deserialization (claim C9). -/

/-- `PersonName` (citeproc/src/input/names.rs 3-11): all parts optional,
serialized in kebab-case. -/
structure PersonName where
  family : Option String
  given : Option String
  non_dropping_particle : Option String
  dropping_particle : Option String
  suffix : Option String
  deriving DecidableEq

/-- `Name` (citeproc/src/input/names.rs 13-24): an untagged enum, the
`Literal` variant declared first so that derived deserialization tries it
first. -/
inductive Name where
  | Literal (literal : String)
  | Person (p : PersonName)
  deriving DecidableEq

/-- A minimal JSON value model for the name deserializer: strings,
integers, null and objects. -/
inductive Json where
  | str (s : String)
  | num (n : Int)
  | null
  | obj (fields : List (String × Json))

/-- First-match field lookup in a JSON object; objects are taken with
unique keys. -/
def lookupField (fields : List (String × Json)) (k : String) : Option Json :=
  fields.lookup k

/-- Modelled serde semantics: the derived impl of the `Literal` struct
variant requires a `literal` field holding a string and ignores unknown
fields. -/
def deserializeLiteral : Json → Option Name
  | .obj fields =>
    match lookupField fields "literal" with
    | some (.str s) => some (.Literal s)
    | _ => none
  | _ => none

/-- Modelled serde semantics for an `Option<String>` struct field: absent
or `null` is `None`, a string is `Some`, anything else is an error. -/
def deserializeOptString : Option Json → Option (Option String)
  | none => some none
  | some .null => some none
  | some (.str s) => some (some s)
  | some _ => none

/-- Modelled serde semantics: the derived impl of `PersonName` reads the
five kebab-case optional fields and ignores unknown fields. -/
def deserializePerson : Json → Option Name
  | .obj fields => do
    let family ← deserializeOptString (lookupField fields "family")
    let given ← deserializeOptString (lookupField fields "given")
    let ndp ← deserializeOptString (lookupField fields "non-dropping-particle")
    let dp ← deserializeOptString (lookupField fields "dropping-particle")
    let sfx ← deserializeOptString (lookupField fields "suffix")
    some (.Person ⟨family, given, ndp, dp, sfx⟩)
  | _ => none

/-- Modelled serde semantics of `#[serde(untagged)]` on `Name`: the
variants' derived impls run in declaration order, `Literal` first, and the
first to succeed wins. -/
def Name.deserialize (j : Json) : Option Name :=
  match deserializeLiteral j with
  | some n => some n
  | none => deserializePerson j

/-! References, cites, cite contexts. -/

/-- The typed bibliographic record (§3.C): four variable namespaces
embedded as functions to `Option`, plus an id and an optional language
tag.  Structured date values are abstracted as raw strings; none of the
embedded code inspects them. -/
structure Reference where
  id : Atom
  language : Option Lang
  ordinary : Variable → Option String
  number : NumberVariable → Option NumericValue
  name : NameVariable → Option (List Name)
  date : DateVariable → Option String

/-- The cite fields read by the embedded methods (`Cite{id, ref_id,
locator?, locator_type?, ...}`); the affix fields are never read by
them. -/
structure Cite where
  id : Nat
  ref_id : Atom
  locator : Option NumericValue
  locator_type : Option String

/-- `Position` (src/style/element.rs 603-611). -/
inductive Position where
  | First
  | Ibid
  | IbidWithLocator
  | Subsequent
  | NearNote
  deriving DecidableEq

/-- `CiteContext` (citeproc/src/proc/cite_context.rs 15-24); the `style`
and `format` fields are not read by the embedded methods and are
omitted. -/
structure CiteContext where
  reference : Reference
  cite : Cite
  position : Position
  citation_number : Nat

/-- `Reference::has_variable` (cite_context.rs 88-100): membership in the
namespace map picked by the variable. -/
def Reference.has_variable (r : Reference) : AnyVariable → Bool
  | .Ordinary v => (r.ordinary v).isSome
  | .Number v => (r.number v).isSome
  | .Name v => (r.name v).isSome
  | .Date v => (r.date v).isSome

/-- `CiteContext::get_number` (cite_context.rs 66-78): `Locator` comes
from the cite, `PageFirst` from `page_first` applied to the reference's
`Page`, everything else from the reference's number map. -/
def CiteContext.get_number (ctx : CiteContext) (var : NumberVariable) :
    Option NumericValue :=
  match var with
  | .Locator => ctx.cite.locator
  | .PageFirst => (ctx.reference.number .Page).bind NumericValue.page_first
  | _ => ctx.reference.number var

/-- `CiteContext::is_numeric` (cite_context.rs 54-64): a number variable
is numeric when its value is; every other namespace is not numeric. -/
def CiteContext.is_numeric (ctx : CiteContext) (var : AnyVariable) : Bool :=
  match var with
  | .Number num => ((ctx.get_number num).map NumericValue.is_numeric).getD false
  | _ => false

/-- `CiteContext::has_variable` (cite_context.rs 33-43): `Dummy` is never
present, `Locator` lives on the cite, `PageFirst` is present iff numeric,
everything else asks the reference. -/
def CiteContext.has_variable (ctx : CiteContext) (var : AnyVariable) : Bool :=
  match var with
  | .Name .Dummy => false
  | .Number .Locator => ctx.cite.locator.isSome
  | .Number .PageFirst => ctx.is_numeric var
  | v => ctx.reference.has_variable v

/-! The processor's reference and locale inputs (claims C3, C10). -/

/-- The `Processor` input state read and written by `set_references`,
`insert_reference`, `store_locales` and `get_langs_in_use`
(citeproc/src/db/mod.rs): the `style`, `all_keys` and `reference_input`
salsa inputs and the stored-locale inputs. -/
structure Processor where
  style : Csl.Style
  all_keys : List Atom
  reference_input : Atom → Option Reference
  locale_input_langs : List Lang
  locale_input_xml : Lang → String

/-- Modelled from the spec (§4.F inputs): the `reference(id)` query of the
cite database (not among the sources) reads `reference_input[id]` for a
registered key of `all_keys`. -/
def Processor.reference (p : Processor) (ref_id : Atom) : Option Reference :=
  if ref_id ∈ p.all_keys then p.reference_input ref_id else none

/-- `Processor::set_references` (db/mod.rs 220-226): store each reference
under its id and replace `all_keys` with the ids of the given list. -/
def set_references (p : Processor) (refs : List Reference) : Processor :=
  { p with
    reference_input :=
      refs.foldl (fun f r => Function.update f r.id (some r)) p.reference_input
    all_keys := (refs.map Reference.id).dedup }

/-- `Processor::insert_reference` (db/mod.rs 228-230): delegates to
`set_references` on the singleton list. -/
def insert_reference (p : Processor) (refr : Reference) : Processor :=
  set_references p [refr]

/-- `Processor::store_locales` (db/mod.rs 339-346): add each lang to the
stored-locale set and store its raw XML; nothing is parsed here. -/
def store_locales (p : Processor) (locales : List (Lang × String)) : Processor :=
  { p with
    locale_input_langs :=
      locales.foldl
        (fun langs lx => if lx.1 ∈ langs then langs else langs ++ [lx.1])
        p.locale_input_langs
    locale_input_xml :=
      locales.foldl (fun f lx => Function.update f lx.1 lx.2) p.locale_input_xml }

/-- `Processor::get_langs_in_use` (db/mod.rs 348-358): the languages of
the registered references, plus the style's default locale. -/
def get_langs_in_use (p : Processor) : Finset Lang :=
  (p.all_keys.filterMap
      (fun k => (p.reference k).bind Reference.language)).toFinset
    ∪ {p.style.default_locale}

/-- The spec's description of `get_langs_in_use` (§6), stated for
refinement comparison: reference languages plus the style's default
locale, minus the bundled `en-US`. -/
def get_langs_in_use_spec (p : Processor) : Finset Lang :=
  ((p.all_keys.filterMap
        (fun k => (p.reference k).bind Reference.language)).toFinset
      ∪ {p.style.default_locale})
    \ {Lang.en_us}

/-- `LocaleFetcher::build` (bindings/ffi/src/lib.rs 32-54): walk the langs
to fetch, skipping the bundled `en-US`; for each remaining lang invoke the
embedder's callback, which may write `(lang, xml)` into the storage
(modelled by `callback` returning the XML it would write, if any). -/
def LocaleFetcher.build (to_fetch : List Lang) (callback : Lang → Option String) :
    List (Lang × String) :=
  (to_fetch.filter fun l => l != Lang.en_us).filterMap
    fun l => (callback l).map fun xml => (l, xml)

/-- A processor with no references whose style default locale is the
bundled `en-US`. -/
def procEnUsOnly : Processor where
  style :=
    { name_inheritance := ⟨fun _ => none⟩
      citation := ⟨⟨fun _ => none⟩⟩
      default_locale := Lang.en_us }
  all_keys := []
  reference_input := fun _ => none
  locale_input_langs := []
  locale_input_xml := fun _ => ""

/-! The incremental engine (claims C4, C5). -/

namespace Engine

/-- Cluster ids. -/
abbrev ClusterId := Nat

/-- Keys of the engine's input slots. -/
abbrev QKey := Nat

/-- Values held by input slots. -/
abbrev Value := Nat

/-- The salsa `EventKind` restricted to what `Processor::salsa_event`
inspects: a `WillExecute` whose database key is `built_cluster(id)`, or
anything else. -/
inductive Event where
  | willExecuteBuiltCluster (id : ClusterId)
  | other
  deriving DecidableEq

/-- Modelled from the spec: `DocUpdate::Cluster(id)` (db/update.rs is not
among the sources), recorded when a cluster was recomputed. -/
inductive DocUpdate where
  | Cluster (id : ClusterId)
  deriving DecidableEq

/-- Modelled from the spec (§4.F, §9): a memoised `built_cluster` result
recording the computed value and every dependency read together with the
value observed; structural equality of observed values realises early
cutoff. -/
structure Memo where
  value : Value
  deps : List (QKey × Value)

/-- The processor together with its runtime state: the keyed input slots,
the `cluster_ids` input, the memo table for `built_cluster`, and the
fields of `Processor` (db/mod.rs 39-44): the update `queue` behind its
mutex and the `save_updates` flag. -/
structure Proc where
  inputs : QKey → Value
  cluster_ids : List ClusterId
  memos : ClusterId → Option Memo
  queue : List DocUpdate
  save_updates : Bool

/-- A memo is valid when every recorded dependency still has the value
observed when the memo was produced (spec §4.F: a dependency whose value
is unchanged does not invalidate). -/
def Memo.valid (inputs : QKey → Value) (m : Memo) : Bool :=
  m.deps.all fun d => inputs d.1 == d.2

/-- `Processor::salsa_event` (db/mod.rs 56-75): when `save_updates` is
set, push a `DocUpdate::Cluster` for a `WillExecute` of `built_cluster`
and ignore every other event; without `save_updates` do nothing. -/
def salsa_event (p : Proc) (ev : Event) : Proc :=
  if p.save_updates then
    match ev with
    | .willExecuteBuiltCluster id => { p with queue := p.queue ++ [.Cluster id] }
    | .other => p
  else p

variable (rule : ClusterId → (QKey → Value) → Value)
variable (rdeps : ClusterId → List QKey)

/-- Modelled from the spec (§4.F): executing `built_cluster(id)`: emit
`WillExecute` to the database, run the pure rule on the current inputs,
and memoise the value with the dependencies read.  Returns the new state
and the events emitted. -/
def execute_built (p : Proc) (id : ClusterId) : Proc × List Event :=
  let p1 := salsa_event p (.willExecuteBuiltCluster id)
  let m1 : Memo := ⟨rule id p.inputs, (rdeps id).map fun i => (i, p.inputs i)⟩
  ({ p1 with memos := Function.update p1.memos id (some m1) },
    [.willExecuteBuiltCluster id])

/-- Modelled from the spec (§4.F): demanding `built_cluster(id)`: a valid
memo is reused without executing or emitting events; otherwise the query
executes. -/
def built_cluster (p : Proc) (id : ClusterId) : Proc × List Event :=
  match p.memos id with
  | some m =>
    if m.valid p.inputs then (p, [])
    else execute_built rule rdeps p id
  | none => execute_built rule rdeps p id

/-- Demand `built_cluster` for each id in turn, accumulating the emitted
events. -/
def run_clusters (p : Proc) : List ClusterId → Proc × List Event
  | [] => (p, [])
  | id :: rest =>
    let r1 := built_cluster rule rdeps p id
    let r2 := run_clusters r1.1 rest
    (r2.1, r1.2 ++ r2.2)

/-- `Processor::compute` (db/mod.rs 151-177, single-threaded branch):
demand `built_cluster` for every current cluster id. -/
def compute (p : Proc) : Proc × List Event :=
  run_clusters rule rdeps p p.cluster_ids

/-- Modelled from the spec: `UpdateSummary::summarize` (db/update.rs is
not among the sources) lists a cluster update for each recorded
`DocUpdate`. -/
def summarize (q : List DocUpdate) : List ClusterId :=
  q.map fun u => match u with | .Cluster id => id

/-- `Processor::batched_updates` (db/mod.rs 179-188): without
`save_updates` return the default (empty) summary; otherwise `compute`,
summarize the queue and clear it. -/
def batched_updates (p : Proc) : List ClusterId × Proc :=
  if p.save_updates then
    let p1 := (compute rule rdeps p).1
    (summarize p1.queue, { p1 with queue := [] })
  else ([], p)

/-- `Processor::drain` (db/mod.rs 190-194): compute, then discard the
recorded updates. -/
def drain (p : Proc) : Proc :=
  let p1 := (compute rule rdeps p).1
  { p1 with queue := [] }

/-- Writing an input slot (a typed salsa input setter, spec §4.F). -/
def set_input (p : Proc) (i : QKey) (v : Value) : Proc :=
  { p with inputs := Function.update p.inputs i v }

/-- Replacing the `cluster_ids` input. -/
def set_cluster_ids (p : Proc) (ids : List ClusterId) : Proc :=
  { p with cluster_ids := ids }

/-- The input mutations available to an embedder between update
batches. -/
inductive Mutation where
  | setInput (i : QKey) (v : Value)
  | setClusterIds (ids : List ClusterId)

/-- Apply one input mutation. -/
def apply_mutation (p : Proc) : Mutation → Proc
  | .setInput i v => set_input p i v
  | .setClusterIds ids => set_cluster_ids p ids

/-- Apply a sequence of input mutations. -/
def apply_mutations (p : Proc) (muts : List Mutation) : Proc :=
  muts.foldl apply_mutation p

/-- The cluster ids named by the `WillExecute(built_cluster)` events of an
event trace. -/
def executed_built_clusters (evs : List Event) : List ClusterId :=
  evs.filterMap fun ev =>
    match ev with
    | .willExecuteBuiltCluster id => some id
    | .other => none

/-- A memo for `id` exists and is valid in `p`. -/
def memo_valid_at (p : Proc) (id : ClusterId) : Prop :=
  ∃ m, p.memos id = some m ∧ m.valid p.inputs = true

/-- A one-cluster engine rule: the build result is the value of input 0. -/
def ruleW : ClusterId → (QKey → Value) → Value := fun _ inputs => inputs 0

/-- The one-cluster engine's dependency record: input 0. -/
def rdepsW : ClusterId → List QKey := fun _ => [0]

/-- A fresh one-cluster engine with update saving enabled. -/
def procW : Proc where
  inputs := fun _ => 0
  cluster_ids := [1]
  memos := fun _ => none
  queue := []
  save_updates := true

end Engine

end Citeproc

namespace Citeproc

/-- Helper: the reverse fold of `merged_locale`, read off field-wise, is
the first `Some` found scanning the locale list front to back. -/
theorem fold_merge_fields (ls : List Locale) (f : LField) :
    ((ls.reverse.foldl
        (fun acc l =>
          match acc with
          | none => some l
          | some base => some (base.merge l))
        none).getD Locale.default).fields f
      = ls.findSome? (fun l => l.fields f) := by
  rw [List.foldl_reverse]
  induction ls with
  | nil => simp [Locale.default, List.findSome?]
  | cons l ls ih =>
    simp only [List.foldr_cons, List.findSome?]
    cases hrest :
        (ls.foldr
          (fun l acc =>
            match acc with
            | none => some l
            | some base => some (base.merge l))
          none) with
    | none =>
      rw [hrest] at ih
      simp only [Option.getD_none] at ih
      simp only [Option.getD_some]
      cases hl : l.fields f with
      | none => simpa [hl] using ih
      | some v => simp [hl]
    | some base =>
      rw [hrest] at ih
      simp only [Option.getD_some] at ih ⊢
      cases hl : l.fields f with
      | none => simpa [Locale.merge, hl] using ih
      | some v => simp [Locale.merge, hl]

/-- Claim C1: for every fallback chain and every optional locale field
`f`, the merged locale's `f` equals the first `Some` value of `f` found
scanning the successfully loaded locales from the requested lang down to
the root fallback, even though `merged_locale` folds the list in reverse
order with `base.merge(&other)`. -/
theorem merged_locale_first_some (db : LocaleDb) (chain : List LocaleSource)
    (f : LField) :
    (merged_locale db chain).fields f
      = (chain.filterMap (locale db)).findSome? (fun l => l.fields f) := by
  unfold merged_locale
  exact fold_merge_fields (chain.filterMap (locale db)) f

/-- Helper: a source that fails to load contributes nothing, so removing
it from the chain leaves the loaded-locale list unchanged. -/
theorem filterMap_locale_skip (db : LocaleDb) (src : LocaleSource)
    (h : locale db src = none) (chain : List LocaleSource) :
    chain.filterMap (locale db)
      = (chain.filter (fun s => s ≠ src)).filterMap (locale db) := by
  induction chain with
  | nil => rfl
  | cons s rest ih =>
    by_cases hs : s = src
    · subst hs
      simp [List.filterMap_cons, List.filter_cons, h, ih]
    · simp [List.filterMap_cons, List.filter_cons, hs, ih]

/-- Helper: a source that fails to load can be dropped from the chain
without changing the merged locale. -/
theorem merged_locale_skip (db : LocaleDb) (src : LocaleSource)
    (h : locale db src = none) (chain : List LocaleSource) :
    merged_locale db chain
      = merged_locale db (chain.filter (fun s => s ≠ src)) := by
  unfold merged_locale
  rw [filterMap_locale_skip db src h chain]

/-- Claim C2: locale XML that fails to parse is fatal when supplied
through the store path (the FFI slot writer parses eagerly and aborts
before `store_locales` ever sees it), whereas a parse failure of XML
obtained from the fallback fetcher makes the `locale` query return `None`
(logged and skipped), so that lang contributes nothing to
`merged_locale`. -/
theorem locale_parse_error_fatal_vs_skipped (db : LocaleDb) (lang : Lang)
    (xml : String) (storage : List (Lang × String))
    (chain : List LocaleSource) :
    (db.from_str xml = none →
      citeproc_rs_write_locale_slot db.from_str storage lang xml
        = .error "could not parse locale xml") ∧
    (lang ∉ db.locale_input_langs →
      db.fetch_string lang = .Ok (some xml) →
      db.from_str xml = none →
      locale db (.File lang) = none ∧
        merged_locale db chain
          = merged_locale db (chain.filter (fun s => s ≠ .File lang))) := by
  constructor
  · intro hparse
    simp [citeproc_rs_write_locale_slot, hparse]
  · intro hstored hfetch hparse
    have hloc : locale db (.File lang) = none := by
      simp [locale, locale_xml, hstored, hfetch, hparse]
    exact ⟨hloc, merged_locale_skip db (.File lang) hloc chain⟩


theorem locale_parse_error_fatal_vs_skipped_witness :
    citeproc_rs_write_locale_slot dbParseErr.from_str [] "de-DE" "<bad"
        = .error "could not parse locale xml" ∧
      locale dbParseErr (.File "de-DE") = none := by
  refine ⟨(locale_parse_error_fatal_vs_skipped dbParseErr "de-DE" "<bad" [] []).1 rfl, ?_⟩
  exact ((locale_parse_error_fatal_vs_skipped dbParseErr "de-DE" "<bad" [] []).2
    (by simp [dbParseErr]) rfl rfl).1

/-- Claim C7: `merged_locale` is total; an empty chain yields
`Locale::default()`, a chain every source of which fails to load yields
`Locale::default()`, and a fetch failure for one lang merely drops that
lang from the merge instead of aborting. -/
theorem merged_locale_total (db : LocaleDb) (chain : List LocaleSource)
    (l : Lang) (e : LocaleFetchError) :
    merged_locale db [] = Locale.default ∧
    ((∀ s ∈ chain, locale db s = none) →
      merged_locale db chain = Locale.default) ∧
    (db.fetch_string l = .Err e → l ∉ db.locale_input_langs →
      merged_locale db chain
        = merged_locale db (chain.filter (fun s => s ≠ .File l))) := by
  refine ⟨rfl, ?_, ?_⟩
  · intro hall
    unfold merged_locale
    rw [List.filterMap_eq_nil_iff.mpr hall]
    rfl
  · intro hfetch hstored
    have hloc : locale db (.File l) = none := by
      simp [locale, locale_xml, hstored, hfetch]
    exact merged_locale_skip db (.File l) hloc chain


theorem merged_locale_total_witness :
    merged_locale dbFetchErr [LocaleSource.File "de-DE", LocaleSource.Inline none]
        = Locale.default ∧
      merged_locale dbFetchErr [LocaleSource.File "de-DE", LocaleSource.Inline none]
        = merged_locale dbFetchErr
            ([LocaleSource.File "de-DE", LocaleSource.Inline none].filter
              (fun s => s ≠ .File "de-DE")) := by
  constructor
  · refine (merged_locale_total dbFetchErr
      [LocaleSource.File "de-DE", LocaleSource.Inline none] "de-DE" (.Other "no transport")).2.1 ?_
    intro s hs
    rcases List.mem_cons.mp hs with rfl | hs
    · rfl
    rcases List.mem_cons.mp hs with rfl | hs
    · rfl
    cases hs
  · exact (merged_locale_total dbFetchErr
      [LocaleSource.File "de-DE", LocaleSource.Inline none] "de-DE"
      (.Other "no transport")).2.2 rfl (by simp [dbFetchErr])

/-- Claim C8: the derived `name_citation` value is
`default.merge(style).merge(citation)` with field-wise merge: attribute by
attribute, the citation-level option wins when `Some`, else the
style-level option, else the root default; `None` is preserved through. -/
theorem name_citation_merge (style : Csl.Style) (a : NAttr) :
    (name_citation style).opts a
      = match style.citation.name_inheritance.opts a with
        | some v => some v
        | none =>
          match style.name_inheritance.opts a with
          | some v => some v
          | none => Csl.Name.root_default.opts a := by
  unfold name_citation Csl.Name.merge
  cases hc : style.citation.name_inheritance.opts a with
  | some v => simp [hc]
  | none =>
    cases hr : style.name_inheritance.opts a with
    | some v => simp [hc, hr]
    | none => simp [hc, hr]

/-- Claim C6: `has_variable` on `PageFirst` holds exactly when the
reference's `Page` value exists and is classified numeric, and
`has_variable` on `Locator` holds exactly when the cite carries a
locator. -/
theorem has_variable_page_first_locator (ctx : CiteContext) :
    (ctx.has_variable (.Number .PageFirst) = true ↔
      ∃ v, ctx.reference.number .Page = some v ∧ v.is_numeric = true) ∧
    (ctx.has_variable (.Number .Locator) = true ↔ ctx.cite.locator.isSome) := by
  constructor
  · simp only [CiteContext.has_variable, CiteContext.is_numeric,
      CiteContext.get_number]
    cases hp : ctx.reference.number .Page with
    | none => simp [hp]
    | some v =>
      cases v <;>
        simp [hp, NumericValue.page_first, NumericValue.is_numeric]
  · simp [CiteContext.has_variable]

/-- Counterexample to claim C3 as stated: with no references and a style
whose default locale is the bundled `en-US`, `get_langs_in_use` returns
the singleton en-US set, not that set minus en-US. -/
theorem get_langs_in_use_counterexample :
    get_langs_in_use procEnUsOnly ≠ get_langs_in_use_spec procEnUsOnly := by
  intro h
  have hmem : Lang.en_us ∈ get_langs_in_use procEnUsOnly := by
    simp [get_langs_in_use, procEnUsOnly]
  rw [h] at hmem
  simp [get_langs_in_use_spec] at hmem

/-- Claim C3 as amended: `get_langs_in_use` returns exactly the language
tags of the registered references plus the style's default locale, with
no lang removed; the bundled `en-US` is skipped later, by the FFI
`LocaleFetcher::build`, which never invokes the fetch callback for it. -/
theorem get_langs_in_use_amended (p : Processor) (l : Lang)
    (to_fetch : List Lang) (callback : Lang → Option String) :
    (l ∈ get_langs_in_use p ↔
      l = p.style.default_locale ∨
        ∃ k ∈ p.all_keys, ∃ r,
          p.reference_input k = some r ∧ r.language = some l) ∧
    (LocaleFetcher.build to_fetch callback).all
        (fun pr => pr.1 != Lang.en_us) = true := by
  constructor
  · constructor
    · intro h
      rcases Finset.mem_union.mp h with h | h
      · right
        rcases List.mem_filterMap.mp (List.mem_toFinset.mp h) with ⟨k, hk, hbind⟩
        rcases Option.bind_eq_some.mp hbind with ⟨r, hr, hlang⟩
        rw [Processor.reference, if_pos hk] at hr
        exact ⟨k, hk, r, hr, hlang⟩
      · left
        exact Finset.mem_singleton.mp h
    · intro h
      rcases h with h | ⟨k, hk, r, hr, hlang⟩
      · exact Finset.mem_union_right _ (Finset.mem_singleton.mpr h)
      · refine Finset.mem_union_left _ (List.mem_toFinset.mpr
          (List.mem_filterMap.mpr ⟨k, hk, ?_⟩))
        rw [Processor.reference, if_pos hk, hr]
        simpa using hlang
  · apply List.all_eq_true.mpr
    intro pr hpr
    rcases List.mem_filterMap.mp hpr with ⟨l', hl', hsome⟩
    have hne := (List.mem_filter.mp hl').2
    cases hx : callback l' with
    | none => rw [hx] at hsome; cases hsome
    | some xml =>
      rw [hx] at hsome
      simp only [Option.map_some'] at hsome
      cases hsome
      exact hne

/-- Claim C10: `insert_reference` replaces the whole `all_keys` input with
the singleton of the new reference's id — every previously registered id
is gone — so `get_langs_in_use` afterwards sees only the new reference's
language (plus the style default). -/
theorem insert_reference_replaces (p : Processor) (r : Reference) :
    (insert_reference p r).all_keys = [r.id] ∧
    (∀ k, k ∈ (insert_reference p r).all_keys ↔ k = r.id) ∧
    get_langs_in_use (insert_reference p r)
      = (r.language.elim ∅ fun l => {l}) ∪ {p.style.default_locale} := by
  have hkeys : (insert_reference p r).all_keys = [r.id] := by
    simp [insert_reference, set_references]
  refine ⟨hkeys, ?_, ?_⟩
  · intro k
    rw [hkeys]
    simp
  · unfold get_langs_in_use
    rw [hkeys]
    have hstyle : (insert_reference p r).style = p.style := rfl
    rw [hstyle]
    have href : (insert_reference p r).reference r.id = some r := by
      rw [Processor.reference, hkeys]
      simp [insert_reference, set_references]
    rw [List.filterMap_cons]
    rw [href]
    cases hl : r.language with
    | none => simp [hl]
    | some l => simp [hl]

/-- Counterexample to claim C9 as stated: a JSON object whose `literal`
field is present but holds a number deserializes as an (empty) `Person`,
not as a `Literal`. -/
theorem name_deserialize_counterexample :
    Name.deserialize (Json.obj [("literal", Json.num 3)])
      = some (Name.Person ⟨none, none, none, none, none⟩) := by
  rfl

/-- Claim C9 as amended: a JSON object with a `literal` field holding a
string deserializes as `Literal` (person-name fields present or not);
when no such field exists the object falls through to the `Person`
deserializer.  Objects are taken with unique keys, as serde rejects
duplicate fields. -/
theorem name_deserialize_amended (fields : List (String × Json)) (s : String)
    (_hnd : (fields.map Prod.fst).Nodup) :
    (lookupField fields "literal" = some (.str s) →
      Name.deserialize (.obj fields) = some (.Literal s)) ∧
    ((∀ t, lookupField fields "literal" ≠ some (.str t)) →
      Name.deserialize (.obj fields) = deserializePerson (.obj fields)) := by
  constructor
  · intro h
    simp [Name.deserialize, deserializeLiteral, h]
  · intro h
    unfold Name.deserialize deserializeLiteral
    cases hl : lookupField fields "literal" with
    | none => simp [hl]
    | some j =>
      cases j with
      | str t => exact absurd hl (h t)
      | num n => simp [hl]
      | null => simp [hl]
      | obj f => simp [hl]

theorem name_deserialize_amended_witness :
    Name.deserialize
        (Json.obj [("literal", Json.str "ACME Corp"), ("family", Json.str "Doe")])
      = some (Name.Literal "ACME Corp") :=
  (name_deserialize_amended
      [("literal", Json.str "ACME Corp"), ("family", Json.str "Doe")]
      "ACME Corp" (by simp)).1 rfl

end Citeproc

namespace Citeproc.Engine

/-- Helper: `salsa_event` only ever touches the queue. -/
theorem salsa_event_fields (p : Proc) (ev : Event) :
    (salsa_event p ev).memos = p.memos ∧
    (salsa_event p ev).inputs = p.inputs ∧
    (salsa_event p ev).cluster_ids = p.cluster_ids ∧
    (salsa_event p ev).save_updates = p.save_updates := by
  unfold salsa_event
  by_cases hs : p.save_updates <;> cases ev <;> simp [hs]

/-- Helper: the state produced by executing `built_cluster(id)`. -/
theorem execute_built_state (rule : ClusterId → (QKey → Value) → Value)
    (rdeps : ClusterId → List QKey) (p : Proc) (id : ClusterId) :
    (execute_built rule rdeps p id).1.inputs = p.inputs ∧
    (execute_built rule rdeps p id).1.cluster_ids = p.cluster_ids ∧
    (execute_built rule rdeps p id).1.save_updates = p.save_updates ∧
    (execute_built rule rdeps p id).1.memos
      = Function.update p.memos id
          (some ⟨rule id p.inputs, (rdeps id).map fun i => (i, p.inputs i)⟩) := by
  unfold execute_built salsa_event
  by_cases hs : p.save_updates <;> simp [hs]

/-- Helper: a freshly recorded memo is valid for the inputs it was
computed from. -/
theorem fresh_memo_valid (rule : ClusterId → (QKey → Value) → Value)
    (rdeps : ClusterId → List QKey) (inputs : QKey → Value) (id : ClusterId) :
    Memo.valid inputs ⟨rule id inputs, (rdeps id).map fun i => (i, inputs i)⟩
      = true := by
  simp only [Memo.valid]
  apply List.all_eq_true.mpr
  intro x hx
  rcases List.mem_map.mp hx with ⟨i, _, rfl⟩
  simp

/-- Helper: demanding `built_cluster` leaves the inputs, the cluster list
and the flag alone. -/
theorem built_cluster_fields (rule : ClusterId → (QKey → Value) → Value)
    (rdeps : ClusterId → List QKey) (p : Proc) (id : ClusterId) :
    (built_cluster rule rdeps p id).1.inputs = p.inputs ∧
    (built_cluster rule rdeps p id).1.cluster_ids = p.cluster_ids ∧
    (built_cluster rule rdeps p id).1.save_updates = p.save_updates := by
  have he := execute_built_state rule rdeps p id
  unfold built_cluster
  cases hm : p.memos id with
  | none => exact ⟨he.1, he.2.1, he.2.2.1⟩
  | some m =>
    by_cases hv : m.valid p.inputs
    · simp [hv]
    · simp only [hv, Bool.false_eq_true, if_false]
      exact ⟨he.1, he.2.1, he.2.2.1⟩

/-- Helper: with `save_updates` set, the queue grows by exactly a
`DocUpdate::Cluster` per `WillExecute(built_cluster)` event emitted. -/
theorem built_cluster_queue (rule : ClusterId → (QKey → Value) → Value)
    (rdeps : ClusterId → List QKey) (p : Proc) (id : ClusterId)
    (hs : p.save_updates = true) :
    (built_cluster rule rdeps p id).1.queue
      = p.queue
        ++ (executed_built_clusters (built_cluster rule rdeps p id).2).map
            DocUpdate.Cluster := by
  unfold built_cluster
  cases hm : p.memos id with
  | none => simp [execute_built, salsa_event, hs, executed_built_clusters]
  | some m =>
    by_cases hv : m.valid p.inputs
    · simp [hv, executed_built_clusters]
    · simp [hv, execute_built, salsa_event, hs, executed_built_clusters]

/-- Helper: demanding `built_cluster(id)` leaves a valid memo for `id`
and keeps every other valid memo valid. -/
theorem built_cluster_valid (rule : ClusterId → (QKey → Value) → Value)
    (rdeps : ClusterId → List QKey) (p : Proc) (id : ClusterId) :
    memo_valid_at (built_cluster rule rdeps p id).1 id ∧
    ∀ j, memo_valid_at p j → memo_valid_at (built_cluster rule rdeps p id).1 j := by
  have he := execute_built_state rule rdeps p id
  have hexec :
      memo_valid_at (execute_built rule rdeps p id).1 id ∧
      ∀ j, memo_valid_at p j →
        memo_valid_at (execute_built rule rdeps p id).1 j := by
    constructor
    · refine ⟨⟨rule id p.inputs, (rdeps id).map fun i => (i, p.inputs i)⟩, ?_, ?_⟩
      · rw [he.2.2.2]
        exact Function.update_same id _ p.memos
      · rw [he.1]
        exact fresh_memo_valid rule rdeps p.inputs id
    · intro j hj
      rcases hj with ⟨m, hm, hv⟩
      by_cases hji : j = id
      · subst hji
        refine ⟨⟨rule j p.inputs, (rdeps j).map fun i => (i, p.inputs i)⟩, ?_, ?_⟩
        · rw [he.2.2.2]
          exact Function.update_same j _ p.memos
        · rw [he.1]
          exact fresh_memo_valid rule rdeps p.inputs j
      · refine ⟨m, ?_, ?_⟩
        · rw [he.2.2.2, Function.update_noteq hji, hm]
        · rw [he.1]
          exact hv
  unfold built_cluster
  cases hm : p.memos id with
  | none => exact hexec
  | some m =>
    by_cases hv : m.valid p.inputs
    · constructor
      · simp only [hv, if_true]
        exact ⟨m, hm, hv⟩
      · intro j hj
        simpa [hv] using hj
    · simp only [hv, Bool.false_eq_true, if_false]
      exact hexec

/-- Helper: `run_clusters` leaves the inputs, the cluster list and the
flag alone. -/
theorem run_clusters_fields (rule : ClusterId → (QKey → Value) → Value)
    (rdeps : ClusterId → List QKey) (ids : List ClusterId) :
    ∀ p : Proc,
      (run_clusters rule rdeps p ids).1.inputs = p.inputs ∧
      (run_clusters rule rdeps p ids).1.cluster_ids = p.cluster_ids ∧
      (run_clusters rule rdeps p ids).1.save_updates = p.save_updates := by
  induction ids with
  | nil => intro p; exact ⟨rfl, rfl, rfl⟩
  | cons id rest ih =>
    intro p
    have h1 := built_cluster_fields rule rdeps p id
    have h2 := ih (built_cluster rule rdeps p id).1
    exact ⟨h2.1.trans h1.1, h2.2.1.trans h1.2.1, h2.2.2.trans h1.2.2⟩

/-- Helper: with `save_updates` set, a run over any id list grows the
queue by exactly the `built_cluster` executions it performed. -/
theorem run_clusters_queue (rule : ClusterId → (QKey → Value) → Value)
    (rdeps : ClusterId → List QKey) (ids : List ClusterId) :
    ∀ p : Proc, p.save_updates = true →
      (run_clusters rule rdeps p ids).1.queue
        = p.queue
          ++ (executed_built_clusters (run_clusters rule rdeps p ids).2).map
              DocUpdate.Cluster := by
  induction ids with
  | nil => intro p _; simp [run_clusters, executed_built_clusters]
  | cons id rest ih =>
    intro p hs
    have h1 := built_cluster_queue rule rdeps p id hs
    have hsave := (built_cluster_fields rule rdeps p id).2.2
    have h2 := ih (built_cluster rule rdeps p id).1 (hsave.trans hs)
    show (run_clusters rule rdeps (built_cluster rule rdeps p id).1 rest).1.queue
      = p.queue
        ++ (executed_built_clusters
            ((built_cluster rule rdeps p id).2
              ++ (run_clusters rule rdeps (built_cluster rule rdeps p id).1 rest).2)).map
            DocUpdate.Cluster

    rw [h2, h1]
    simp [executed_built_clusters, List.filterMap_append, List.append_assoc]

/-- Helper: everything demanded in a run has a valid memo afterwards, and
previously valid memos stay valid. -/
theorem run_clusters_valid (rule : ClusterId → (QKey → Value) → Value)
    (rdeps : ClusterId → List QKey) (ids : List ClusterId) :
    ∀ p : Proc,
      (∀ id ∈ ids, memo_valid_at (run_clusters rule rdeps p ids).1 id) ∧
      (∀ j, memo_valid_at p j →
        memo_valid_at (run_clusters rule rdeps p ids).1 j) := by
  induction ids with
  | nil =>
    intro p
    exact ⟨fun id h => absurd h (List.not_mem_nil id), fun j hj => hj⟩
  | cons id rest ih =>
    intro p
    have h1 := built_cluster_valid rule rdeps p id
    have h2 := ih (built_cluster rule rdeps p id).1
    constructor
    · intro i hi
      rcases List.mem_cons.mp hi with rfl | hi
      · exact h2.2 i h1.1
      · exact h2.1 i hi
    · intro j hj
      exact h2.2 j (h1.2 j hj)

/-- Helper: when every demanded memo is already valid, a run is a no-op
and emits no events (nothing re-executes). -/
theorem run_clusters_all_valid (rule : ClusterId → (QKey → Value) → Value)
    (rdeps : ClusterId → List QKey) (ids : List ClusterId) :
    ∀ p : Proc, (∀ id ∈ ids, memo_valid_at p id) →
      run_clusters rule rdeps p ids = (p, []) := by
  induction ids with
  | nil => intro p _; rfl
  | cons id rest ih =>
    intro p h
    rcases h id (List.mem_cons_self id rest) with ⟨m, hm, hv⟩
    have hbc : built_cluster rule rdeps p id = (p, []) := by
      simp [built_cluster, hm, hv]
    have hrest : run_clusters rule rdeps p rest = (p, []) :=
      ih p fun i hi => h i (List.mem_cons_of_mem _ hi)
    show (let r1 := built_cluster rule rdeps p id
          let r2 := run_clusters rule rdeps r1.1 rest
          (r2.1, r1.2 ++ r2.2)) = (p, [])
    rw [hbc]
    simp [hrest]

/-- Helper: input mutations never touch the flag or the queue. -/
theorem apply_mutations_fields (muts : List Mutation) :
    ∀ p : Proc,
      (apply_mutations p muts).save_updates = p.save_updates ∧
      (apply_mutations p muts).queue = p.queue := by
  induction muts with
  | nil => intro p; exact ⟨rfl, rfl⟩
  | cons m rest ih =>
    intro p
    have h1 : (apply_mutation p m).save_updates = p.save_updates ∧
        (apply_mutation p m).queue = p.queue := by
      cases m <;> exact ⟨rfl, rfl⟩
    have h2 := ih (apply_mutation p m)
    exact ⟨h2.1.trans h1.1, h2.2.trans h1.2⟩

/-- Helper: summarising a pure cluster queue recovers the ids. -/
theorem summarize_map_cluster (ids : List ClusterId) :
    summarize (ids.map DocUpdate.Cluster) = ids := by
  induction ids with
  | nil => rfl
  | cons i is ih => simpa [summarize, List.map_map] using ih

/-- Claim C4: with update saving enabled and the queue drained by the
previous `batched_updates`/`drain`, any sequence of input mutations
followed by `batched_updates()` yields exactly the cluster ids whose
`built_cluster` query executed (emitted `WillExecute`) during the call's
`compute()`, and leaves the recorded queue empty. -/
theorem batched_updates_exact (rule : ClusterId → (QKey → Value) → Value)
    (rdeps : ClusterId → List QKey) (p0 : Proc) (muts : List Mutation)
    (hs : p0.save_updates = true) (hq : p0.queue = []) :
    (batched_updates rule rdeps (apply_mutations p0 muts)).1
      = executed_built_clusters
          (compute rule rdeps (apply_mutations p0 muts)).2 ∧
    (batched_updates rule rdeps (apply_mutations p0 muts)).2.queue = [] := by
  have hf := apply_mutations_fields muts p0
  have hs1 : (apply_mutations p0 muts).save_updates = true := hf.1.trans hs
  have hq1 : (apply_mutations p0 muts).queue = [] := hf.2.trans hq
  have hcq :
      (compute rule rdeps (apply_mutations p0 muts)).1.queue
        = (apply_mutations p0 muts).queue
          ++ (executed_built_clusters
              (compute rule rdeps (apply_mutations p0 muts)).2).map
              DocUpdate.Cluster :=
    run_clusters_queue rule rdeps (apply_mutations p0 muts).cluster_ids
      (apply_mutations p0 muts) hs1
  have hbu1 : (batched_updates rule rdeps (apply_mutations p0 muts)).1
      = summarize (compute rule rdeps (apply_mutations p0 muts)).1.queue := by
    simp [batched_updates, hs1]
  have hbu2 : (batched_updates rule rdeps (apply_mutations p0 muts)).2.queue
      = [] := by
    simp [batched_updates, hs1]
  refine ⟨?_, hbu2⟩
  rw [hbu1, hcq, hq1, List.nil_append, summarize_map_cluster]

theorem batched_updates_exact_witness :
    (batched_updates ruleW rdepsW (apply_mutations procW [])).1
      = executed_built_clusters (compute ruleW rdepsW (apply_mutations procW [])).2 ∧
    (batched_updates ruleW rdepsW (apply_mutations procW [])).2.queue = [] :=
  batched_updates_exact ruleW rdepsW procW [] rfl rfl

/-- Counterexample to claim C5 as stated: the claim quantifies over every
processor on which `compute()` has run, but a direct `compute()` leaves
its recorded updates in the queue, so after rewriting an input to its own
value the next `batched_updates()` still reports the earlier recomputation
(here cluster 1) instead of an empty summary — even though nothing
re-executed. -/
theorem early_cutoff_counterexample :
    (batched_updates ruleW rdepsW
        (set_input (compute ruleW rdepsW procW).1 0
          ((compute ruleW rdepsW procW).1.inputs 0))).1 ≠ [] := by
  decide

/-- Helper: rewriting an input slot to its current value is the identity
on the processor state. -/
theorem set_input_self (p : Proc) (i : QKey) :
    set_input p i (p.inputs i) = p := by
  unfold set_input
  rw [Function.update_eq_self]

/-- Claim C5 as amended: after a `compute()` whose updates have been
drained (as `batched_updates`/`drain` do), rewriting any input to a value
equal to its current value causes no derived query to re-execute (the
next `compute` emits no `WillExecute` events), and a subsequent
`batched_updates()` returns an empty summary and an empty queue. -/
theorem early_cutoff_amended (rule : ClusterId → (QKey → Value) → Value)
    (rdeps : ClusterId → List QKey) (p0 : Proc) (i : QKey) :
    (compute rule rdeps
        (set_input (drain rule rdeps p0) i
          ((drain rule rdeps p0).inputs i))).2 = [] ∧
    (batched_updates rule rdeps
        (set_input (drain rule rdeps p0) i
          ((drain rule rdeps p0).inputs i))).1 = [] ∧
    (batched_updates rule rdeps
        (set_input (drain rule rdeps p0) i
          ((drain rule rdeps p0).inputs i))).2.queue = [] := by
  rw [set_input_self]
  have hvalid := run_clusters_valid rule rdeps p0.cluster_ids p0
  have hfields := run_clusters_fields rule rdeps p0.cluster_ids p0
  have hall : ∀ id ∈ (drain rule rdeps p0).cluster_ids,
      memo_valid_at (drain rule rdeps p0) id := by
    intro id hid
    have hcc : (drain rule rdeps p0).cluster_ids = p0.cluster_ids :=
      hfields.2.1
    have hid' : id ∈ p0.cluster_ids := by
      rw [hcc] at hid
      exact hid
    exact hvalid.1 id hid'
  have hrun : run_clusters rule rdeps (drain rule rdeps p0)
      (drain rule rdeps p0).cluster_ids = (drain rule rdeps p0, []) :=
    run_clusters_all_valid rule rdeps (drain rule rdeps p0).cluster_ids
      (drain rule rdeps p0) hall
  have hcomp : compute rule rdeps (drain rule rdeps p0)
      = (drain rule rdeps p0, []) := hrun
  have hdq : (drain rule rdeps p0).queue = [] := rfl
  refine ⟨by rw [hcomp], ?_, ?_⟩
  · by_cases hs : (drain rule rdeps p0).save_updates = true
    · simp [batched_updates, hs, hcomp, hdq, summarize]
    · simp [batched_updates, hs]
  · by_cases hs : (drain rule rdeps p0).save_updates = true
    · simp [batched_updates, hs]
    · simp [batched_updates, hs, hdq]

end Citeproc.Engine
